import Mathlib

/-!
Verification of the memai Memory & Knowledge-Graph Engine specification
against the repository's code.

The embedding below models, in order:
* `cosineSimilarity` (embedding mock, `src/unnamed/part_007`, lines 70-89) —
  the only claim-relevant routine whose implementation ships in the sources;
  the JS `number[]` vectors are modelled as `List ℝ`.
* the quota gate `checkMemoryQuota` / `checkApiQuota`,
* graph traversal `traverse` / `findPath`,
* the extraction pipeline `extractFromText`,
* the tenant key validator `validateKey`,
all of whose implementations are not under `src/` (only their unit tests
are); these are modelled from the spec, with every behavioural choice pinned
by the unit tests that do ship.

The file is laid out as all definitions first, then all theorems.
-/

namespace Memai

/-! # Definitions -/

/-! ## Cosine similarity (from `src/unnamed/part_007`, lines 70-89)

The JS code loops `i` over `a` accumulating `dotProduct`, `normA`, `normB`;
after the length guard the loop is the simultaneous structural recursion
below.  `magnitude = sqrt(normA) * sqrt(normB)` and the final division are
kept verbatim; floating point is idealised as `ℝ`. -/

/-- Accumulated `normA` (resp. `normB`) of the JS loop: the sum of squares. -/
def normSq : List ℝ → ℝ
  | [] => 0
  | x :: xs => x * x + normSq xs

/-- Accumulated `dotProduct` of the JS loop (only reached with equal lengths). -/
def dotProduct : List ℝ → List ℝ → ℝ
  | x :: xs, y :: ys => x * y + dotProduct xs ys
  | _, _ => 0

/-- `cosineSimilarity` from the mock: guard on lengths, then
`magnitude = sqrt(normA)*sqrt(normB)`; `if magnitude === 0 return 0`;
else `dotProduct / magnitude`.  The thrown `Error` is an `Except.error`. -/
noncomputable def cosineSimilarity (a b : List ℝ) : Except String ℝ :=
  if a.length ≠ b.length then Except.error "Vector dimensions must match"
  else if Real.sqrt (normSq a) * Real.sqrt (normSq b) = 0 then Except.ok 0
  else Except.ok (dotProduct a b / (Real.sqrt (normSq a) * Real.sqrt (normSq b)))

/-! ## Quota gate

Modelled from the spec: `quota.service.ts` is not under `src/`; only its unit
tests (`src/unnamed/part_001`) are.  Tier limits are the ones the tests pin
(FREE: 10000 memories / 1000 API calls, HOBBY: 50000 / 5000, ENTERPRISE
unlimited — rendered as `none`).  The memory comparison is taken as
`count + quantity > limit`, the only comparison consistent with the tests
(HOBBY at count 49999 and quantity 1 must be allowed, FREE at count 10000 and
quantity 1 must be disallowed, FREE at 9999 with quantity 2 must be
disallowed).  The persistent-store lookups the service performs are passed in
as their results: the current memory count, the api-key row (its `userId`,
`none` when the key does not exist) and the monthly usage counter
(`none` when no counter row exists yet). -/

inductive SubscriptionTier where
  | FREE
  | HOBBY
  | ENTERPRISE
deriving DecidableEq

/-- Per-tier memory-count limit; `none` is the unlimited class. -/
def memoryLimit : SubscriptionTier → Option Nat
  | .FREE => some 10000
  | .HOBBY => some 50000
  | .ENTERPRISE => none

/-- Per-tier monthly API-call limit; `none` is the unlimited class. -/
def monthlyApiLimit : SubscriptionTier → Option Nat
  | .FREE => some 1000
  | .HOBBY => some 5000
  | .ENTERPRISE => none

structure QuotaCheckResult where
  allowed : Bool
  reason : Option String
deriving DecidableEq

/-- Human-readable disallow reason naming the limit (tests require it to
contain "Memory limit reached" and the limit value). -/
def memoryLimitReason (limit : Nat) : String :=
  "Memory limit reached: " ++ toString limit

/-- Modelled from the spec: `QuotaService.checkMemoryQuota` (not under
`src/`).  Unlimited tiers always allow; bounded tiers disallow when the write
would push the count strictly beyond the limit. -/
def checkMemoryQuota (tier : SubscriptionTier) (currentCount quantity : Nat) :
    QuotaCheckResult :=
  match memoryLimit tier with
  | none => { allowed := true, reason := none }
  | some limit =>
      if limit < currentCount + quantity then
        { allowed := false, reason := some (memoryLimitReason limit) }
      else
        { allowed := true, reason := none }

/-- Modelled from the spec: `QuotaService.checkApiQuota` (not under `src/`).
The api-key row is looked up first; a missing key is denied outright with
"API Key not found" (test `part_001` lines 91-98).  Otherwise unlimited
tiers allow without touching the counter; bounded tiers read (or lazily
create, with 0 used) the monthly counter and disallow at the limit. -/
def checkApiQuota (keyUserId : Option String) (tier : SubscriptionTier)
    (monthlyApiUsed : Option Nat) : QuotaCheckResult :=
  match keyUserId with
  | none => { allowed := false, reason := some "API Key not found" }
  | some _ =>
      match monthlyApiLimit tier with
      | none => { allowed := true, reason := none }
      | some limit =>
          if limit ≤ monthlyApiUsed.getD 0 then
            { allowed := false, reason := some "Monthly API call limit reached" }
          else
            { allowed := true, reason := none }

/-! ## Graph store and traversal

Modelled from the spec: `graph.service.ts` is not under `src/`; only its unit
tests (`src/apps/server/src/graph/__tests__/graph.service.spec.ts`) are.
Entities and relations carry the fields the traversal reads; tenant/user
scoping is implicit in the `Graph` value (every store read is already
tenant-filtered).  The repository calls `entityRepository.findById` and
`relationRepository.findByEntity` are modelled as functions
`find : String → Option Entity` and `fetch : String → List Relation`, so
that "never performs a relation lookup" is expressible as independence from
`fetch`; a `Graph` instantiates them. -/

structure Entity where
  id : String
  userId : String
  type : String
  name : String
  properties : Option String
deriving DecidableEq

structure Relation where
  id : String
  sourceId : String
  targetId : String
  type : String
  confidence : ℚ
deriving DecidableEq

structure Graph where
  entities : List Entity
  relations : List Relation

/-- `entityRepository.findById`, tenant-scoped. -/
def findById (g : Graph) (i : String) : Option Entity :=
  g.entities.find? (fun e => e.id == i)

/-- `relationRepository.findByEntity`: all relations where the entity is
source or target. -/
def findByEntity (g : Graph) (i : String) : List Relation :=
  g.relations.filter (fun r => r.sourceId == i || r.targetId == i)

/-- The other endpoint of a relation relative to the frontier node. -/
def neighborOf (r : Relation) (u : String) : String :=
  if r.sourceId == u then r.targetId else r.sourceId

/-- Projection of an entity to the returned graph node shape
(`getFullGraph`/`traverse` project entities to
`id, type, name, properties`). -/
structure GraphNode where
  id : String
  type : String
  name : String
  properties : Option String
deriving DecidableEq

def Entity.toNode (e : Entity) : GraphNode :=
  { id := e.id, type := e.type, name := e.name, properties := e.properties }

structure TraverseOptions where
  maxDepth : Nat := 2
  limit : Option Nat := none
  entityTypes : Option (List String) := none
  relationTypes : Option (List String) := none

/-- An optional type filter admits everything when unset. -/
def typeAllowed (f : Option (List String)) (t : String) : Bool :=
  match f with
  | none => true
  | some l => l.contains t

/-- The node budget: no practical cap when unset. -/
def underLimit (l : Option Nat) (n : Nat) : Bool :=
  match l with
  | none => true
  | some k => n < k

/-- Admit an edge to the result, deduplicated by edge id. -/
def addEdge (edges : List Relation) (r : Relation) : List Relation :=
  if edges.any (fun e => e.id == r.id) then edges else edges ++ [r]

/-- BFS state: visited-node set (seeded with the start), result node list,
result edge list, and the next frontier being built for the current level. -/
structure BfsState where
  visited : List String
  nodes : List GraphNode
  edges : List Relation
  next : List String

/-- Process one relation of a frontier node `u`: apply the relation-type
filter, admit the edge (dedup by id), then — if the neighbor is newly
visited, resolves, passes the entity-type filter and the node budget — admit
the neighbor node and queue it. -/
def stepRelation (find : String → Option Entity) (opts : TraverseOptions)
    (u : String) (st : BfsState) (r : Relation) : BfsState :=
  if typeAllowed opts.relationTypes r.type then
    let nb := neighborOf r u
    let st1 : BfsState := { st with edges := addEdge st.edges r }
    if st1.visited.contains nb then st1
    else
      match find nb with
      | none => st1
      | some ne =>
          if typeAllowed opts.entityTypes ne.type
              && underLimit opts.limit st1.nodes.length then
            { st1 with
                visited := st1.visited ++ [nb]
                nodes := st1.nodes ++ [ne.toNode]
                next := st1.next ++ [nb] }
          else st1
  else st

/-- Fetch all relations touching one frontier node and process them. -/
def expandNode (find : String → Option Entity) (fetch : String → List Relation)
    (opts : TraverseOptions) (st : BfsState) (u : String) : BfsState :=
  (fetch u).foldl (stepRelation find opts u) st

/-- Process one whole BFS level. -/
def expandFrontier (find : String → Option Entity)
    (fetch : String → List Relation) (opts : TraverseOptions)
    (st : BfsState) (frontier : List String) : BfsState :=
  frontier.foldl (expandNode find fetch opts) st

/-- Run up to `maxDepth` BFS levels, stopping early on an empty frontier. -/
def traverseLoop (find : String → Option Entity)
    (fetch : String → List Relation) (opts : TraverseOptions) :
    Nat → List String → BfsState → BfsState
  | 0, _, st => st
  | d + 1, frontier, st =>
      if frontier.isEmpty then st
      else
        let st' := expandFrontier find fetch opts { st with next := [] } frontier
        traverseLoop find fetch opts d st'.next st'

/-- Modelled from the spec: `GraphService.traverse` (not under `src/`),
bounded breadth-first expansion over injected repository lookups. -/
def traverseWith (find : String → Option Entity)
    (fetch : String → List Relation) (startId : String)
    (opts : TraverseOptions) : List GraphNode × List Relation :=
  match find startId with
  | none => ([], [])
  | some s =>
      let stF := traverseLoop find fetch opts opts.maxDepth [startId]
        { visited := [startId], nodes := [s.toNode], edges := [], next := [] }
      (stF.nodes, stF.edges)

/-- `GraphService.traverse` over a concrete tenant graph. -/
def traverse (g : Graph) (startId : String) (opts : TraverseOptions) :
    List GraphNode × List Relation :=
  traverseWith (findById g) (findByEntity g) startId opts

/-! ## Shortest path search

Modelled from the spec: `GraphService.findPath` (not under `src/`) expands
the frontier exactly as `traverse` (no filters, no node budget), records how
each newly visited node was discovered, and stops as soon as `toId` is
discovered.  The spec's predecessor map plus walk-back reconstruction is
rendered by carrying the reconstructed path (projected nodes plus connecting
edges) with each frontier entry, which yields the same node and edge
sequences.  A level is processed by first scanning for a relation that
reaches the target ("stop as soon as `toId` is discovered") and, only when
there is none, expanding every frontier node's relations — extensionally the
same result as the interleaved scan, since the target is never in the
visited set. -/

/-- One BFS search entry: a frontier node id plus the path that discovered
it. -/
structure SearchEntry where
  id : String
  nodes : List GraphNode
  edges : List Relation

/-- Scan the current frontier, in order, for the first relation reaching the
target; `tn` is the target's projected node. -/
def levelFind (fetch : String → List Relation) (toId : String)
    (tn : GraphNode) (frontier : List SearchEntry) :
    Option (List GraphNode × List Relation) :=
  frontier.findSome? (fun ent =>
    (fetch ent.id).findSome? (fun r =>
      if neighborOf r ent.id == toId then
        some (ent.nodes ++ [tn], ent.edges ++ [r])
      else none))

/-- Visit one relation during level expansion: skip already-visited or
unresolvable neighbors, otherwise mark visited and queue the neighbor with
its extended path. -/
def searchStep (find : String → Option Entity) (u : String)
    (pn : List GraphNode) (pe : List Relation)
    (acc : List String × List SearchEntry) (r : Relation) :
    List String × List SearchEntry :=
  let nb := neighborOf r u
  if acc.1.contains nb then acc
  else
    match find nb with
    | none => acc
    | some ne =>
        (acc.1 ++ [nb],
          acc.2 ++ [{ id := nb, nodes := pn ++ [ne.toNode],
                      edges := pe ++ [r] }])

/-- Expand all relations of one frontier entry. -/
def searchExpandEntry (find : String → Option Entity)
    (fetch : String → List Relation)
    (acc : List String × List SearchEntry) (ent : SearchEntry) :
    List String × List SearchEntry :=
  (fetch ent.id).foldl (searchStep find ent.id ent.nodes ent.edges) acc

/-- Expand one whole level: returns the grown visited set and the next
frontier. -/
def searchExpand (find : String → Option Entity)
    (fetch : String → List Relation) (visited : List String)
    (frontier : List SearchEntry) : List String × List SearchEntry :=
  frontier.foldl (searchExpandEntry find fetch) (visited, [])

/-- The depth-bounded BFS loop of `findPath`. -/
def searchLoop (find : String → Option Entity)
    (fetch : String → List Relation) (toId : String) (tn : GraphNode) :
    Nat → List String → List SearchEntry →
    Option (List GraphNode × List Relation)
  | 0, _, _ => none
  | d + 1, visited, frontier =>
      match levelFind fetch toId tn frontier with
      | some p => some p
      | none =>
          let vf := searchExpand find fetch visited frontier
          searchLoop find fetch toId tn d vf.1 vf.2

/-- Modelled from the spec: `GraphService.findPath` (not under `src/`) over
injected repository lookups.  Returns `none` when either endpoint does not
resolve; a trivial one-node path when the endpoints coincide; otherwise runs
the BFS up to `maxDepth` levels. -/
def findPathWith (find : String → Option Entity)
    (fetch : String → List Relation) (fromId toId : String) (maxDepth : Nat) :
    Option (List GraphNode × List Relation) :=
  match find fromId, find toId with
  | some fe, some te =>
      if fromId == toId then some ([fe.toNode], [])
      else
        searchLoop find fetch toId te.toNode maxDepth [fromId]
          [{ id := fromId, nodes := [fe.toNode], edges := [] }]
  | _, _ => none

/-- `GraphService.findPath` over a concrete tenant graph. -/
def findPath (g : Graph) (fromId toId : String) (maxDepth : Nat) :
    Option (List GraphNode × List Relation) :=
  findPathWith (findById g) (findByEntity g) fromId toId maxDepth

/-! ### Claim-side path predicates (the formalization of "relation chain") -/

/-- `u` steps to `v` through some relation the store returns for `u`. -/
def EdgeStep (fetch : String → List Relation) (u v : String) : Prop :=
  ∃ r ∈ fetch u, neighborOf r u = v

/-- Iterated relation composition with an explicit hop count. -/
def NSteps (R : String → String → Prop) : Nat → String → String → Prop
  | 0 => fun a b => a = b
  | n + 1 => fun a c => ∃ b, R a b ∧ NSteps R n b c

/-- A BFS-traversable step that does not discover the target: the new node
is not the target and resolves in the entity store. -/
def WalkStep (find : String → Option Entity)
    (fetch : String → List Relation) (toId : String) (u v : String) : Prop :=
  EdgeStep fetch u v ∧ v ≠ toId ∧ (find v).isSome

/-- One step of a first-hit relation chain towards `toId`: the chain never
leaves the target (so only the last node is `toId`) and every node it enters
either is the target or resolves in the entity store. -/
def ConnStep (find : String → Option Entity)
    (fetch : String → List Relation) (toId : String) (u v : String) : Prop :=
  u ≠ toId ∧ EdgeStep fetch u v ∧ (v = toId ∨ (find v).isSome)

/-- "A relation chain of `n` hops connects `fromId` and `toId`": the claim's
connectivity notion, read over the graph's resolvable nodes (intermediate
nodes must exist in the entity store, exactly the chains the spec's
traversal can follow). -/
def ConnectsIn (find : String → Option Entity)
    (fetch : String → List Relation) (fromId toId : String) (n : Nat) : Prop :=
  NSteps (ConnStep find fetch toId) n fromId toId

/-- The returned node and edge sequences interleave correctly: each listed
edge is a store relation of the node before it and leads to the node after
it. -/
def PathChain (fetch : String → List Relation) :
    List GraphNode → List Relation → Prop
  | [_], [] => True
  | a :: b :: rest, r :: rs =>
      r ∈ fetch a.id ∧ neighborOf r a.id = b.id ∧ PathChain fetch (b :: rest) rs
  | _, _ => False

/-- A step the level expansion can take from node `u`: some relation of `u`
reaches `w` and `w` resolves in the entity store. -/
def StepTo (find : String → Option Entity) (fetch : String → List Relation)
    (u w : String) : Prop :=
  ∃ r ∈ fetch u, neighborOf r u = w ∧ (find w).isSome

/-- Search-frontier entry invariant at BFS level `k`: the carried path is a
valid chain of exactly `k` edges from the source to the entry's node. -/
def EntryInv (fetch : String → List Relation) (fromId : String) (k : Nat)
    (ent : SearchEntry) : Prop :=
  PathChain fetch ent.nodes ent.edges
  ∧ ent.nodes.head?.map GraphNode.id = some fromId
  ∧ (ent.nodes.getLast?).map GraphNode.id = some ent.id
  ∧ ent.edges.length = k

/-- What the claim requires of a returned path: a valid chain, ordered from
`fromId` to `toId`, realising a connecting relation chain of minimal hop
count. -/
def GoodPath (find : String → Option Entity) (fetch : String → List Relation)
    (fromId toId : String) (p : List GraphNode × List Relation) : Prop :=
  PathChain fetch p.1 p.2
  ∧ p.1.head?.map GraphNode.id = some fromId
  ∧ (p.1.getLast?).map GraphNode.id = some toId
  ∧ ConnectsIn find fetch fromId toId p.2.length
  ∧ ∀ m, ConnectsIn find fetch fromId toId m → p.2.length ≤ m

/-! ## Extraction pipeline

Modelled from the spec: `extract.service.ts` is not under `src/`; only its
unit tests (`src/unnamed/part_005`) are.  The LLM provider's raw extraction
is a value; the graph-store collaborators `entityService.upsert` and
`relationService.create` are injected functions (as the unit tests inject
mocks).  Confidence defaults to 1 when absent; entities and relations
strictly below `minConfidence` (default 0.5) are filtered out; with
`saveToGraph` each surviving entity is upserted while a case-insensitive
name-to-id map is built (later entities overwrite earlier ones, as a JS
`Map.set` does — rendered by looking the later-built suffix up first);
relations resolve their endpoint names against that map and unresolvable
ones are silently dropped. -/

structure RawEntity where
  name : String
  type : String
  confidence : Option ℚ
deriving DecidableEq

structure RawRelation where
  source : String
  target : String
  type : String
  confidence : Option ℚ
deriving DecidableEq

structure RawExtraction where
  entities : List RawEntity
  relations : List RawRelation
deriving DecidableEq

structure ExtractOptions where
  minConfidence : Option ℚ := none
  saveToGraph : Bool := true

structure ExtractResult where
  entities : List Entity
  relations : List Relation
  rawExtraction : RawExtraction
deriving DecidableEq

/-- Confidence defaults to 1 when the provider omits it. -/
def confidenceOf (c : Option ℚ) : ℚ := c.getD 1

/-- Keep an item when its (defaulted) confidence is not strictly below the
threshold. -/
def passesConfidence (minC : ℚ) (c : Option ℚ) : Bool :=
  decide (minC ≤ confidenceOf c)

/-- The confidence-surviving entities of a raw extraction. -/
def survivingEntities (llm : RawExtraction) (opts : ExtractOptions) :
    List RawEntity :=
  llm.entities.filter (fun e =>
    passesConfidence (opts.minConfidence.getD (1 / 2)) e.confidence)

/-- The confidence-surviving relations of a raw extraction. -/
def survivingRelations (llm : RawExtraction) (opts : ExtractOptions) :
    List RawRelation :=
  llm.relations.filter (fun rel =>
    passesConfidence (opts.minConfidence.getD (1 / 2)) rel.confidence)

/-- Lowercasing for the case-insensitive name map: JS `.toLowerCase()` is
modelled characterwise (structurally, so that concrete runs evaluate). -/
def lowerName (s : String) : String := String.mk (s.data.map Char.toLower)

/-- Upsert each surviving entity in order, building the case-insensitive
name-to-id map (an entity processed later overwrites an equal lowercased
name, so its pair is looked up first) and the persisted-entity list. -/
def buildEntityMap (upsert : RawEntity → Entity) :
    List RawEntity → List (String × String) × List Entity
  | [] => ([], [])
  | re :: rest =>
      let m := buildEntityMap upsert rest
      (m.1 ++ [(lowerName re.name, (upsert re).id)], upsert re :: m.2)

/-- Case-insensitive map lookup (the first, i.e. latest-written, match). -/
def lookupName (m : List (String × String)) (n : String) : Option String :=
  (m.find? (fun p => p.1 == lowerName n)).map (fun p => p.2)

/-- Persist each surviving relation whose endpoint names both resolve;
silently drop the others. -/
def persistRelations (createRel : String → String → RawRelation → Relation)
    (m : List (String × String)) : List RawRelation → List Relation
  | [] => []
  | rel :: rest =>
      match lookupName m rel.source, lookupName m rel.target with
      | some sid, some tid =>
          createRel sid tid rel :: persistRelations createRel m rest
      | _, _ => persistRelations createRel m rest

/-- The name-to-id map of one extraction run. -/
def entityNameMap (llm : RawExtraction) (opts : ExtractOptions)
    (upsert : RawEntity → Entity) : List (String × String) :=
  (buildEntityMap upsert (survivingEntities llm opts)).1

/-- Modelled from the spec: `ExtractService.extractFromText` (not under
`src/`), after the LLM call: confidence-filter, optional persistence via the
injected `upsert`/`createRel` collaborators, raw extraction returned for
audit. -/
def extractFromText (llm : RawExtraction) (opts : ExtractOptions)
    (upsert : RawEntity → Entity)
    (createRel : String → String → RawRelation → Relation) : ExtractResult :=
  let ents := survivingEntities llm opts
  let rels := survivingRelations llm opts
  if opts.saveToGraph then
    let m := buildEntityMap upsert ents
    { entities := m.2
      relations := persistRelations createRel m.1 rels
      rawExtraction := { entities := ents, relations := rels } }
  else
    { entities := [], relations := [],
      rawExtraction := { entities := ents, relations := rels } }

/-- A name resolves against the surviving entities, case-insensitively. -/
def resolvesIn (ents : List RawEntity) (n : String) : Bool :=
  ents.any (fun e => lowerName e.name == lowerName n)

/-! ## Tenant key validator

Modelled from the spec: `api-key.service.ts` is not under `src/`; only its
unit tests (`src/apps/server/src/api-key/__tests__/api-key.service.spec.ts`)
are.  The TTL-cache read (at the key's hash) and write, and the persistent
lookup by hash, are injected as their outcomes: a cache read either fails,
misses, or returns a cached validation; the cache write either succeeds or
fails; the store lookup returns the key row (with its owning user's state)
or nothing.  A cache-read failure is treated as a miss and a cache-write
failure is absorbed, per the spec's error-handling design.  The asynchronous
`lastUsedAt` touch has no bearing on the returned value and is not
modelled. -/

structure ApiKeyRecord where
  id : String
  userId : String
  name : String
  isActive : Bool
  expiresAt : Option Int
  userDeleted : Bool
  subscriptionTier : Option String
deriving DecidableEq

structure KeyValidation where
  id : String
  userId : String
  name : String
  tier : String
deriving DecidableEq

inductive AuthError where
  | invalidFormat
  | notFound
  | inactive
  | expired
  | userDeleted
deriving DecidableEq

/-- Modelled from the spec: `ApiKeyService.validateKey` (not under `src/`).
Format check first; cache hit short-circuits; cache miss or cache-read error
falls through to the store lookup; the usual inactive/expired/user-deleted
checks; on success the result is returned whether or not the cache write
succeeded. -/
def validateKey (rawKey : String)
    (cacheRead : Except String (Option KeyValidation))
    (cacheWrite : Except String Unit)
    (lookup : Option ApiKeyRecord) (now : Int) :
    Except AuthError KeyValidation :=
  if rawKey.isEmpty || !(rawKey.data.take 3 == "mk_".data) then
    Except.error AuthError.invalidFormat
  else
    match cacheRead with
    | Except.ok (some cached) => Except.ok cached
    | _ =>
        match lookup with
        | none => Except.error AuthError.notFound
        | some k =>
            if !k.isActive then Except.error AuthError.inactive
            else if (match k.expiresAt with
                | some t => decide (t < now)
                | none => false) then Except.error AuthError.expired
            else if k.userDeleted then Except.error AuthError.userDeleted
            else
              match cacheWrite with
              | Except.ok _ =>
                  Except.ok ⟨k.id, k.userId, k.name,
                    k.subscriptionTier.getD "FREE"⟩
              | Except.error _ =>
                  Except.ok ⟨k.id, k.userId, k.name,
                    k.subscriptionTier.getD "FREE"⟩

/-! # Theorems -/

/-! ## Cosine similarity -/

theorem normSq_nonneg (v : List ℝ) : 0 ≤ normSq v := by
  induction v with
  | nil => simp [normSq]
  | cons x xs ih => simpa [normSq] using add_nonneg (mul_self_nonneg x) ih

theorem dotProduct_self (v : List ℝ) : dotProduct v v = normSq v := by
  induction v with
  | nil => simp [dotProduct, normSq]
  | cons x xs ih => simp [dotProduct, normSq, ih]

/-- Claim C5, as stated, is false on the code: for the zero vector the guard
`magnitude === 0` returns `0`, not (approximately) `1`. -/
theorem cosineSimilarity_self_zero_cex :
    cosineSimilarity [(0 : ℝ)] [0] = Except.ok 0 ∧ (0 : ℝ) ≠ 1 := by
  constructor
  · simp [cosineSimilarity, normSq]
  · norm_num

/-- Claim C5 (amended): for every vector of nonzero magnitude,
`cosineSimilarity(v, v)` is exactly `1` in the real-number model (the
floating-point code returns it approximately). -/
theorem cosineSimilarity_self (v : List ℝ) (h : normSq v ≠ 0) :
    cosineSimilarity v v = Except.ok 1 := by
  have hm : Real.sqrt (normSq v) * Real.sqrt (normSq v) = normSq v :=
    Real.mul_self_sqrt (normSq_nonneg v)
  unfold cosineSimilarity
  rw [if_neg (by simp), if_neg (by rw [hm]; exact h), hm, dotProduct_self,
    div_self h]

/-- Witness for `cosineSimilarity_self` at the concrete vector `[1]`. -/
theorem cosineSimilarity_self_witness :
    cosineSimilarity [(1 : ℝ)] [1] = Except.ok 1 :=
  cosineSimilarity_self [1] (by norm_num [normSq])

/-- Claim C6: `cosineSimilarity` fails with the dimension-mismatch error
exactly when the input lengths differ; equal-length inputs never raise it. -/
theorem cosineSimilarity_dim_mismatch (a b : List ℝ) :
    cosineSimilarity a b = Except.error "Vector dimensions must match" ↔
      a.length ≠ b.length := by
  by_cases h : a.length = b.length
  · simp only [cosineSimilarity, h, ne_eq, not_true_eq_false, if_false]
    constructor
    · intro hc
      by_cases hz : Real.sqrt (normSq a) * Real.sqrt (normSq b) = 0
      · rw [if_pos hz] at hc; cases hc
      · rw [if_neg hz] at hc; cases hc
    · intro hc; exact hc.elim
  · simp [cosineSimilarity, h]

/-- Claim C9: the division is guarded — when either vector has zero magnitude
the result is `0`, and on equal-length inputs the function always returns a
value (total, no error). -/
theorem cosineSimilarity_zero_guard (a b : List ℝ) (h : a.length = b.length) :
    (normSq a = 0 ∨ normSq b = 0 → cosineSimilarity a b = Except.ok 0)
    ∧ ∃ r, cosineSimilarity a b = Except.ok r := by
  constructor
  · intro hz
    have hmag : Real.sqrt (normSq a) * Real.sqrt (normSq b) = 0 := by
      rcases hz with hz | hz <;> rw [hz] <;> simp [Real.sqrt_zero]
    simp [cosineSimilarity, h, hmag]
  · by_cases hz : Real.sqrt (normSq a) * Real.sqrt (normSq b) = 0
    · exact ⟨0, by simp [cosineSimilarity, h, hz]⟩
    · exact ⟨dotProduct a b / (Real.sqrt (normSq a) * Real.sqrt (normSq b)),
        by simp [cosineSimilarity, h, hz]⟩

/-- Witness for `cosineSimilarity_zero_guard` at the concrete zero vector. -/
theorem cosineSimilarity_zero_guard_witness :
    cosineSimilarity [(0 : ℝ)] [0] = Except.ok 0 :=
  (cosineSimilarity_zero_guard [0] [0] rfl).1 (Or.inl (by norm_num [normSq]))

/-! ## Quota gate -/

/-- Claim C1, as stated, is false on the code: its own tests mandate that the
HOBBY tier at current count 49999 with quantity 1 is allowed, although
`49999 + 1 ≥ 50000`, the HOBBY limit. -/
theorem checkMemoryQuota_ge_cex :
    memoryLimit SubscriptionTier.HOBBY = some 50000
    ∧ 50000 ≤ 49999 + 1
    ∧ (checkMemoryQuota SubscriptionTier.HOBBY 49999 1).allowed = true := by
  refine ⟨rfl, by norm_num, ?_⟩
  decide

/-- Claim C1 (amended): for bounded tiers `checkMemoryQuota` disallows exactly
when `count + quantity` strictly exceeds the limit (reason naming the limit);
the unlimited tier always allows. -/
theorem checkMemoryQuota_spec (tier : SubscriptionTier) (c q : Nat) :
    (memoryLimit tier = none →
      checkMemoryQuota tier c q = { allowed := true, reason := none })
    ∧ ∀ limit, memoryLimit tier = some limit →
        ((checkMemoryQuota tier c q).allowed = false ↔ limit < c + q)
        ∧ (limit < c + q →
            checkMemoryQuota tier c q =
              { allowed := false, reason := some (memoryLimitReason limit) })
        ∧ (c + q ≤ limit →
            checkMemoryQuota tier c q = { allowed := true, reason := none }) := by
  constructor
  · intro h; simp [checkMemoryQuota, h]
  · intro limit h
    refine ⟨?_, ?_, ?_⟩
    · by_cases hlt : limit < c + q <;> simp [checkMemoryQuota, h, hlt]
    · intro hlt; simp [checkMemoryQuota, h, hlt]
    · intro hle; simp [checkMemoryQuota, h, Nat.not_lt.mpr hle]

/-- Witness for `checkMemoryQuota_spec`: FREE at 9999 with quantity 2 is
disallowed with the reason naming the 10000 limit, and HOBBY at 49999 with
quantity 1 is allowed. -/
theorem checkMemoryQuota_spec_witness :
    checkMemoryQuota SubscriptionTier.FREE 9999 2 =
      { allowed := false, reason := some (memoryLimitReason 10000) }
    ∧ checkMemoryQuota SubscriptionTier.HOBBY 49999 1 =
      { allowed := true, reason := none } :=
  ⟨(((checkMemoryQuota_spec SubscriptionTier.FREE 9999 2).2 10000 rfl).2.1
      (by norm_num)),
   (((checkMemoryQuota_spec SubscriptionTier.HOBBY 49999 1).2 50000 rfl).2.2
      (by norm_num))⟩

/-- Claim C10: an unknown tenant key is denied with "API Key not found"
whatever the tier and whatever the usage counter holds — the quantifiers over
`tier` and `used` express that neither is consulted. -/
theorem checkApiQuota_unknown_key (tier : SubscriptionTier) (used : Option Nat) :
    checkApiQuota none tier used =
      { allowed := false, reason := some "API Key not found" } := rfl

/-! ## Graph traversal -/

theorem foldl_preserve {α β : Type} (P : β → Prop) (f : β → α → β)
    (hf : ∀ b a, P b → P (f b a)) :
    ∀ (l : List α) (b : β), P b → P (l.foldl f b) := by
  intro l
  induction l with
  | nil => intro b hb; exact hb
  | cons x xs ih => intro b hb; exact ih (f b x) (hf b x hb)

theorem addEdge_nodup (edges : List Relation) (r : Relation)
    (h : (edges.map (fun e => e.id)).Nodup) :
    ((addEdge edges r).map (fun e => e.id)).Nodup := by
  unfold addEdge
  by_cases hmem : edges.any (fun e => e.id == r.id)
  · rw [if_pos hmem]; exact h
  · rw [if_neg hmem]
    rw [List.map_append, List.map_singleton]
    rw [List.nodup_append]
    refine ⟨h, List.nodup_singleton _, ?_⟩
    intro x hx hx1
    rw [List.mem_singleton] at hx1
    subst hx1
    rcases List.mem_map.mp hx with ⟨e, he, heq⟩
    apply hmem
    rw [List.any_eq_true]
    exact ⟨e, he, by simp [heq]⟩

theorem stepRelation_nodup (find : String → Option Entity)
    (opts : TraverseOptions) (u : String) (st : BfsState) (r : Relation)
    (h : (st.edges.map (fun e => e.id)).Nodup) :
    (((stepRelation find opts u st r).edges).map (fun e => e.id)).Nodup := by
  unfold stepRelation
  dsimp only
  repeat' split
  all_goals first
    | exact h
    | exact addEdge_nodup st.edges r h

theorem traverseLoop_nodup (find : String → Option Entity)
    (fetch : String → List Relation) (opts : TraverseOptions) :
    ∀ (d : Nat) (frontier : List String) (st : BfsState),
      (st.edges.map (fun e => e.id)).Nodup →
      (((traverseLoop find fetch opts d frontier st).edges).map
        (fun e => e.id)).Nodup := by
  intro d
  induction d with
  | zero => intro frontier st h; exact h
  | succ d ih =>
      intro frontier st h
      unfold traverseLoop
      by_cases he : frontier.isEmpty
      · rw [if_pos he]; exact h
      · rw [if_neg he]
        apply ih
        unfold expandFrontier
        refine foldl_preserve
          (fun s : BfsState => ((s.edges).map (fun e => e.id)).Nodup)
          _ ?_ frontier { st with next := [] } h
        intro b a hb
        unfold expandNode
        refine foldl_preserve
          (fun s : BfsState => ((s.edges).map (fun e => e.id)).Nodup)
          _ ?_ (fetch a) b hb
        intro b2 r hb2
        exact stepRelation_nodup find opts a b2 r hb2

theorem traverseWith_edges_nodup (find : String → Option Entity)
    (fetch : String → List Relation) (startId : String)
    (opts : TraverseOptions) :
    (((traverseWith find fetch startId opts).2).map (fun e => e.id)).Nodup := by
  unfold traverseWith
  cases hfind : find startId with
  | none => simp
  | some s =>
      show ((traverseLoop find fetch opts opts.maxDepth [startId]
          { visited := [startId], nodes := [s.toNode], edges := [],
            next := [] }).edges.map (fun e => e.id)).Nodup
      exact traverseLoop_nodup find fetch opts opts.maxDepth [startId]
        { visited := [startId], nodes := [s.toNode], edges := [], next := [] }
        (by simp)

/-- Claim C4: for every graph, start entity and option combination, the edge
list returned by `traverse` contains no two edges with the same edge id. -/
theorem traverse_no_duplicate_edges (g : Graph) (startId : String)
    (opts : TraverseOptions) :
    (((traverse g startId opts).2).map (fun e => e.id)).Nodup :=
  traverseWith_edges_nodup (findById g) (findByEntity g) startId opts

/-- Claim C3: with `maxDepth = 0`, `traverse` returns exactly the start node
and zero edges when the start entity exists, and empty lists when it does
not; the final conjunct — the result is the same for an arbitrary
replacement relation lookup `fetch'` — expresses that no relation lookup is
consulted at depth zero. -/
theorem traverse_depth_zero (g : Graph) (fetch' : String → List Relation)
    (startId : String) (opts : TraverseOptions) (h : opts.maxDepth = 0) :
    (∀ e, findById g startId = some e →
        traverse g startId opts = ([e.toNode], []))
    ∧ (findById g startId = none → traverse g startId opts = ([], []))
    ∧ traverse g startId opts = traverseWith (findById g) fetch' startId opts := by
  refine ⟨?_, ?_, ?_⟩
  · intro e he
    unfold traverse traverseWith
    rw [he, h]
    simp [traverseLoop]
  · intro he
    unfold traverse traverseWith
    rw [he]
  · unfold traverse traverseWith
    cases hfind : findById g startId with
    | none => rfl
    | some s => rw [h]; simp [traverseLoop]

/-- Witness for `traverse_depth_zero` on a one-entity graph. -/
theorem traverse_depth_zero_witness :
    traverse
      { entities := [{ id := "a", userId := "u", type := "PERSON",
                       name := "John", properties := none }], relations := [] }
      "a" { maxDepth := 0 } =
      ([{ id := "a", type := "PERSON", name := "John", properties := none }],
        []) :=
  (traverse_depth_zero
      { entities := [{ id := "a", userId := "u", type := "PERSON",
                       name := "John", properties := none }], relations := [] }
      (fun _ => []) "a" { maxDepth := 0 } rfl).1
    { id := "a", userId := "u", type := "PERSON", name := "John",
      properties := none } rfl

/-! ## Shortest path: chain combinatorics -/

theorem nsteps_succ_right (R : String → String → Prop) :
    ∀ (n : Nat) (a c : String),
      NSteps R (n + 1) a c ↔ ∃ b, NSteps R n a b ∧ R b c := by
  intro n
  induction n with
  | zero =>
      intro a c
      constructor
      · rintro ⟨b, hab, hbc⟩
        have hb : b = c := hbc
        subst hb
        exact ⟨a, rfl, hab⟩
      · rintro ⟨b, hab, hbc⟩
        have hb : a = b := hab
        subst hb
        exact ⟨c, hbc, rfl⟩
  | succ n ih =>
      intro a c
      constructor
      · rintro ⟨b, hab, hbc⟩
        rcases (ih b c).mp hbc with ⟨m, hbm, hmc⟩
        exact ⟨m, ⟨b, hab, hbm⟩, hmc⟩
      · rintro ⟨m, hm, hmc⟩
        rcases hm with ⟨b, hab, hbm⟩
        exact ⟨b, hab, (ih b c).mpr ⟨m, hbm, hmc⟩⟩

theorem walk_ne_target (find : String → Option Entity)
    (fetch : String → List Relation) (toId : String) :
    ∀ (k : Nat) (a v : String),
      NSteps (WalkStep find fetch toId) k a v → a ≠ toId → v ≠ toId := by
  intro k
  induction k with
  | zero =>
      intro a v h ha
      have hv : a = v := h
      subst hv; exact ha
  | succ k ih =>
      intro a v h _
      rcases h with ⟨b, hab, hbv⟩
      exact ih b v hbv hab.2.1

theorem connects_decompose (find : String → Option Entity)
    (fetch : String → List Relation) (toId : String) :
    ∀ (k : Nat) (u : String), u ≠ toId →
      (NSteps (ConnStep find fetch toId) (k + 1) u toId ↔
        ∃ v, NSteps (WalkStep find fetch toId) k u v ∧ EdgeStep fetch v toId) := by
  intro k
  induction k with
  | zero =>
      intro u hu
      constructor
      · rintro ⟨b, hub, hb⟩
        have hb' : b = toId := hb
        subst hb'
        exact ⟨u, rfl, hub.2.1⟩
      · rintro ⟨v, hv, hvto⟩
        have huv : u = v := hv
        subst huv
        exact ⟨toId, ⟨hu, hvto, Or.inl rfl⟩, rfl⟩
  | succ k ih =>
      intro u hu
      constructor
      · rintro ⟨b, hub, hb⟩
        have hbne : b ≠ toId := by
          rcases hb with ⟨c, hbc, _⟩
          exact hbc.1
        have hbs : (find b).isSome := by
          rcases hub.2.2 with h | h
          · exact absurd h hbne
          · exact h
        rcases (ih b hbne).mp hb with ⟨v, hbv, hvto⟩
        exact ⟨v, ⟨b, ⟨hub.2.1, hbne, hbs⟩, hbv⟩, hvto⟩
      · rintro ⟨v, hv, hvto⟩
        rcases hv with ⟨b, hub, hbv⟩
        have hbne : b ≠ toId := hub.2.1
        exact ⟨b, ⟨hu, hub.1, Or.inr hub.2.2⟩, (ih b hbne).mpr ⟨v, hbv, hvto⟩⟩

theorem nat_exists_min {Q : Nat → Prop} (h : ∃ n, Q n) :
    ∃ n, Q n ∧ ∀ m, m < n → ¬Q m := by
  classical
  exact ⟨Nat.find h, Nat.find_spec h, fun m hm => Nat.find_min h hm⟩

/-! ## Shortest path: level scan -/

theorem levelFind_eq_none (fetch : String → List Relation) (toId : String)
    (tn : GraphNode) (frontier : List SearchEntry) :
    levelFind fetch toId tn frontier = none ↔
      ∀ ent ∈ frontier, ∀ r ∈ fetch ent.id, neighborOf r ent.id ≠ toId := by
  unfold levelFind
  rw [List.findSome?_eq_none_iff]
  constructor
  · intro h ent hent r hr hne
    have h2 := h ent hent
    rw [List.findSome?_eq_none_iff] at h2
    have h3 := h2 r hr
    rw [if_pos (by simp [hne])] at h3
    cases h3
  · intro h ent hent
    rw [List.findSome?_eq_none_iff]
    intro r hr
    rw [if_neg (by simp [h ent hent r hr])]

theorem levelFind_eq_some (fetch : String → List Relation) (toId : String)
    (tn : GraphNode) (frontier : List SearchEntry)
    (p : List GraphNode × List Relation)
    (h : levelFind fetch toId tn frontier = some p) :
    ∃ ent ∈ frontier, ∃ r ∈ fetch ent.id,
      neighborOf r ent.id = toId ∧ p = (ent.nodes ++ [tn], ent.edges ++ [r]) := by
  unfold levelFind at h
  obtain ⟨ent, hent, h2⟩ := List.exists_of_findSome?_eq_some h
  obtain ⟨r, hr, h3⟩ := List.exists_of_findSome?_eq_some h2
  by_cases hb : neighborOf r ent.id = toId
  · rw [if_pos (by simp [hb])] at h3
    injection h3 with h4
    exact ⟨ent, hent, r, hr, hb, h4.symm⟩
  · rw [if_neg (by simp [hb])] at h3
    cases h3

/-! ## Shortest path: chain concatenation -/

theorem pathChain_ne_nil (fetch : String → List Relation)
    (es : List Relation) (h : PathChain fetch [] es) : False := by
  cases es <;> simp [PathChain] at h

theorem pathChain_concat (fetch : String → List Relation) :
    ∀ (ns : List GraphNode) (es : List Relation) (a b : GraphNode)
      (r : Relation),
      PathChain fetch ns es → ns.getLast? = some a →
      r ∈ fetch a.id → neighborOf r a.id = b.id →
      PathChain fetch (ns ++ [b]) (es ++ [r]) := by
  intro ns
  induction ns with
  | nil => intro es a b r h; exact (pathChain_ne_nil fetch es h).elim
  | cons x xs ih =>
      intro es a b r h hlast hr hnb
      cases xs with
      | nil =>
          cases es with
          | nil =>
              have hax : x = a := by simpa using hlast
              subst hax
              simpa [PathChain] using ⟨hr, hnb⟩
          | cons e es' => simp [PathChain] at h
      | cons y ys =>
          cases es with
          | nil => simp [PathChain] at h
          | cons e es' =>
              have h' : e ∈ fetch x.id ∧ neighborOf e x.id = y.id ∧
                  PathChain fetch (y :: ys) es' := h
              have hlast' : (y :: ys).getLast? = some a := by
                rwa [List.getLast?_cons_cons] at hlast
              have := ih es' a b r h'.2.2 hlast' hr hnb
              simpa [PathChain] using ⟨h'.1, h'.2.1, this⟩

/-! ## Shortest path: level expansion characterization -/

theorem searchStep_mem_fst (find : String → Option Entity) (u : String)
    (pn : List GraphNode) (pe : List Relation)
    (acc : List String × List SearchEntry) (r : Relation) (w : String) :
    w ∈ (searchStep find u pn pe acc r).1 ↔
      w ∈ acc.1 ∨ (neighborOf r u = w ∧ (find w).isSome) := by
  unfold searchStep
  dsimp only
  by_cases hc : acc.1.contains (neighborOf r u)
  · rw [if_pos hc]
    constructor
    · intro hw; exact Or.inl hw
    · rintro (hw | ⟨hnb, _⟩)
      · exact hw
      · subst hnb; simpa using hc
  · rw [if_neg hc]
    cases hfind : find (neighborOf r u) with
    | none =>
        constructor
        · intro hw; exact Or.inl hw
        · rintro (hw | ⟨hnb, hs⟩)
          · exact hw
          · subst hnb; rw [hfind] at hs; cases hs
    | some ne =>
        show w ∈ acc.1 ++ [neighborOf r u] ↔ _
        rw [List.mem_append, List.mem_singleton]
        constructor
        · rintro (hw | hw)
          · exact Or.inl hw
          · subst hw; exact Or.inr ⟨rfl, by rw [hfind]; rfl⟩
        · rintro (hw | ⟨hnb, _⟩)
          · exact Or.inl hw
          · exact Or.inr hnb.symm

theorem searchStep_mem_snd (find : String → Option Entity) (u : String)
    (pn : List GraphNode) (pe : List Relation)
    (acc : List String × List SearchEntry) (r : Relation) (w : String) :
    (∃ e' ∈ (searchStep find u pn pe acc r).2, e'.id = w) ↔
      (∃ e' ∈ acc.2, e'.id = w)
      ∨ (w ∉ acc.1 ∧ neighborOf r u = w ∧ (find w).isSome) := by
  unfold searchStep
  dsimp only
  by_cases hc : acc.1.contains (neighborOf r u)
  · rw [if_pos hc]
    constructor
    · intro hw; exact Or.inl hw
    · rintro (hw | ⟨hnv, hnb, _⟩)
      · exact hw
      · subst hnb; exact absurd (by simpa using hc) hnv
  · rw [if_neg hc]
    cases hfind : find (neighborOf r u) with
    | none =>
        constructor
        · intro hw; exact Or.inl hw
        · rintro (hw | ⟨hnv, hnb, hs⟩)
          · exact hw
          · subst hnb; rw [hfind] at hs; cases hs
    | some ne =>
        show (∃ e' ∈ acc.2 ++ [_], e'.id = w) ↔ _
        constructor
        · rintro ⟨e', he', hid⟩
          rw [List.mem_append, List.mem_singleton] at he'
          rcases he' with he' | he'
          · exact Or.inl ⟨e', he', hid⟩
          · subst he'
            refine Or.inr ⟨?_, hid, ?_⟩
            · simp only at hid
              subst hid
              exact fun hw => hc (by simpa using hw)
            · simp only at hid
              subst hid
              rw [hfind]; rfl
        · rintro (⟨e', he', hid⟩ | ⟨hnv, hnb, _⟩)
          · exact ⟨e', List.mem_append.mpr (Or.inl he'), hid⟩
          · subst hnb
            exact ⟨_, List.mem_append.mpr (Or.inr (List.mem_singleton.mpr rfl)),
              rfl⟩

theorem searchStep_origin (find : String → Option Entity) (u : String)
    (pn : List GraphNode) (pe : List Relation)
    (acc : List String × List SearchEntry) (r : Relation)
    (e' : SearchEntry) (he' : e' ∈ (searchStep find u pn pe acc r).2) :
    e' ∈ acc.2
    ∨ ∃ ne, find (neighborOf r u) = some ne
        ∧ e' = { id := neighborOf r u, nodes := pn ++ [ne.toNode],
                 edges := pe ++ [r] } := by
  unfold searchStep at he'
  dsimp only at he'
  by_cases hc : acc.1.contains (neighborOf r u)
  · rw [if_pos hc] at he'; exact Or.inl he'
  · rw [if_neg hc] at he'
    cases hfind : find (neighborOf r u) with
    | none => rw [hfind] at he'; exact Or.inl he'
    | some ne =>
        rw [hfind] at he'
        rw [List.mem_append, List.mem_singleton] at he'
        rcases he' with he' | he'
        · exact Or.inl he'
        · exact Or.inr ⟨ne, rfl, he'⟩

theorem searchStepFold_mem_fst (find : String → Option Entity) (u : String)
    (pn : List GraphNode) (pe : List Relation) :
    ∀ (rs : List Relation) (acc : List String × List SearchEntry) (w : String),
      w ∈ (rs.foldl (searchStep find u pn pe) acc).1 ↔
        w ∈ acc.1 ∨ ∃ r ∈ rs, neighborOf r u = w ∧ (find w).isSome := by
  intro rs
  induction rs with
  | nil => intro acc w; simp
  | cons r rs ih =>
      intro acc w
      rw [List.foldl_cons, ih, searchStep_mem_fst]
      simp only [List.mem_cons]
      constructor
      · rintro ((hw | hw) | ⟨r', hr', hw⟩)
        · exact Or.inl hw
        · exact Or.inr ⟨r, Or.inl rfl, hw⟩
        · exact Or.inr ⟨r', Or.inr hr', hw⟩
      · rintro (hw | ⟨r', hr' | hr', hw⟩)
        · exact Or.inl (Or.inl hw)
        · subst hr'; exact Or.inl (Or.inr hw)
        · exact Or.inr ⟨r', hr', hw⟩

theorem searchStepFold_mem_snd (find : String → Option Entity) (u : String)
    (pn : List GraphNode) (pe : List Relation) :
    ∀ (rs : List Relation) (acc : List String × List SearchEntry) (w : String),
      (∃ e' ∈ (rs.foldl (searchStep find u pn pe) acc).2, e'.id = w) ↔
        (∃ e' ∈ acc.2, e'.id = w)
        ∨ (w ∉ acc.1 ∧ ∃ r ∈ rs, neighborOf r u = w ∧ (find w).isSome) := by
  intro rs
  induction rs with
  | nil => intro acc w; simp
  | cons r rs ih =>
      intro acc w
      rw [List.foldl_cons, ih, searchStep_mem_snd, searchStep_mem_fst]
      simp only [List.mem_cons]
      constructor
      · rintro ((hw | ⟨hnv, hw⟩) | ⟨hnv, r', hr', hw⟩)
        · exact Or.inl hw
        · exact Or.inr ⟨hnv, r, Or.inl rfl, hw⟩
        · refine Or.inr ⟨fun hmem => hnv (Or.inl hmem), r', Or.inr hr', hw⟩
      · rintro (hw | ⟨hnv, r', hr' | hr', hw⟩)
        · exact Or.inl (Or.inl hw)
        · subst hr'; exact Or.inl (Or.inr ⟨hnv, hw⟩)
        · by_cases hmid : neighborOf r u = w ∧ (find w).isSome
          · exact Or.inl (Or.inr ⟨hnv, hmid⟩)
          · refine Or.inr ⟨?_, r', hr', hw⟩
            rintro (hmem | hmem)
            · exact hnv hmem
            · exact hmid hmem

theorem searchStepFold_origin (find : String → Option Entity) (u : String)
    (pn : List GraphNode) (pe : List Relation) :
    ∀ (rs : List Relation) (acc : List String × List SearchEntry)
      (e' : SearchEntry), e' ∈ (rs.foldl (searchStep find u pn pe) acc).2 →
      e' ∈ acc.2
      ∨ ∃ r ∈ rs, ∃ ne, find (neighborOf r u) = some ne
          ∧ e' = { id := neighborOf r u, nodes := pn ++ [ne.toNode],
                   edges := pe ++ [r] } := by
  intro rs
  induction rs with
  | nil => intro acc e' h; exact Or.inl h
  | cons r rs ih =>
      intro acc e' h
      rw [List.foldl_cons] at h
      rcases ih _ e' h with h2 | ⟨r', hr', ne, hne, he'⟩
      · rcases searchStep_origin find u pn pe acc r e' h2 with h3 | ⟨ne, hne, he'⟩
        · exact Or.inl h3
        · exact Or.inr ⟨r, List.mem_cons_self r rs, ne, hne, he'⟩
      · exact Or.inr ⟨r', List.mem_cons_of_mem r hr', ne, hne, he'⟩

theorem stepTo_iff (find : String → Option Entity)
    (fetch : String → List Relation) (u w : String) :
    StepTo find fetch u w ↔ EdgeStep fetch u w ∧ (find w).isSome := by
  constructor
  · rintro ⟨r, hr, hnb, hs⟩; exact ⟨⟨r, hr, hnb⟩, hs⟩
  · rintro ⟨⟨r, hr, hnb⟩, hs⟩; exact ⟨r, hr, hnb, hs⟩

theorem searchExpandFold_mem_fst (find : String → Option Entity)
    (fetch : String → List Relation) :
    ∀ (F : List SearchEntry) (acc : List String × List SearchEntry)
      (w : String),
      w ∈ (F.foldl (searchExpandEntry find fetch) acc).1 ↔
        w ∈ acc.1 ∨ ∃ ent ∈ F, StepTo find fetch ent.id w := by
  intro F
  induction F with
  | nil => intro acc w; simp
  | cons ent F ih =>
      intro acc w
      rw [List.foldl_cons, ih]
      have h1 : ∀ w', w' ∈ (searchExpandEntry find fetch acc ent).1 ↔
          w' ∈ acc.1 ∨ StepTo find fetch ent.id w' := by
        intro w'
        unfold searchExpandEntry StepTo
        exact searchStepFold_mem_fst find ent.id ent.nodes ent.edges
          (fetch ent.id) acc w'
      rw [h1]
      simp only [List.mem_cons]
      constructor
      · rintro ((hw | hw) | ⟨ent', hent', hw⟩)
        · exact Or.inl hw
        · exact Or.inr ⟨ent, Or.inl rfl, hw⟩
        · exact Or.inr ⟨ent', Or.inr hent', hw⟩
      · rintro (hw | ⟨ent', hent' | hent', hw⟩)
        · exact Or.inl (Or.inl hw)
        · subst hent'; exact Or.inl (Or.inr hw)
        · exact Or.inr ⟨ent', hent', hw⟩

theorem searchExpandFold_mem_snd (find : String → Option Entity)
    (fetch : String → List Relation) :
    ∀ (F : List SearchEntry) (acc : List String × List SearchEntry)
      (w : String),
      (∃ e' ∈ (F.foldl (searchExpandEntry find fetch) acc).2, e'.id = w) ↔
        (∃ e' ∈ acc.2, e'.id = w)
        ∨ (w ∉ acc.1 ∧ ∃ ent ∈ F, StepTo find fetch ent.id w) := by
  intro F
  induction F with
  | nil => intro acc w; simp
  | cons ent F ih =>
      intro acc w
      rw [List.foldl_cons, ih]
      have h1 : ∀ w', w' ∈ (searchExpandEntry find fetch acc ent).1 ↔
          w' ∈ acc.1 ∨ StepTo find fetch ent.id w' := by
        intro w'
        unfold searchExpandEntry StepTo
        exact searchStepFold_mem_fst find ent.id ent.nodes ent.edges
          (fetch ent.id) acc w'
      have h2 : (∃ e' ∈ (searchExpandEntry find fetch acc ent).2, e'.id = w) ↔
          (∃ e' ∈ acc.2, e'.id = w)
          ∨ (w ∉ acc.1 ∧ StepTo find fetch ent.id w) := by
        unfold searchExpandEntry StepTo
        exact searchStepFold_mem_snd find ent.id ent.nodes ent.edges
          (fetch ent.id) acc w
      rw [h2, h1]
      simp only [List.mem_cons]
      constructor
      · rintro ((hw | ⟨hnv, hw⟩) | ⟨hnv, ent', hent', hw⟩)
        · exact Or.inl hw
        · exact Or.inr ⟨hnv, ent, Or.inl rfl, hw⟩
        · exact Or.inr ⟨fun hmem => hnv (Or.inl hmem), ent', Or.inr hent', hw⟩
      · rintro (hw | ⟨hnv, ent', hent' | hent', hw⟩)
        · exact Or.inl (Or.inl hw)
        · subst hent'; exact Or.inl (Or.inr ⟨hnv, hw⟩)
        · by_cases hmid : StepTo find fetch ent.id w
          · exact Or.inl (Or.inr ⟨hnv, hmid⟩)
          · refine Or.inr ⟨?_, ent', hent', hw⟩
            rintro (hmem | hmem)
            · exact hnv hmem
            · exact hmid hmem

theorem searchExpandFold_origin (find : String → Option Entity)
    (fetch : String → List Relation) :
    ∀ (F : List SearchEntry) (acc : List String × List SearchEntry)
      (e' : SearchEntry),
      e' ∈ (F.foldl (searchExpandEntry find fetch) acc).2 →
      e' ∈ acc.2
      ∨ ∃ ent ∈ F, ∃ r ∈ fetch ent.id, ∃ ne,
          find (neighborOf r ent.id) = some ne
          ∧ e' = { id := neighborOf r ent.id,
                   nodes := ent.nodes ++ [ne.toNode],
                   edges := ent.edges ++ [r] } := by
  intro F
  induction F with
  | nil => intro acc e' h; exact Or.inl h
  | cons ent F ih =>
      intro acc e' h
      rw [List.foldl_cons] at h
      rcases ih _ e' h with h2 | ⟨ent', hent', r, hr, ne, hne, he'⟩
      · rcases searchStepFold_origin find ent.id ent.nodes ent.edges
            (fetch ent.id) acc e' h2 with h3 | ⟨r, hr, ne, hne, he'⟩
        · exact Or.inl h3
        · exact Or.inr ⟨ent, List.mem_cons_self ent F, r, hr, ne, hne, he'⟩
      · exact Or.inr ⟨ent', List.mem_cons_of_mem ent hent', r, hr, ne, hne, he'⟩

/-! ## Shortest path: the per-level BFS invariant -/

theorem searchExpand_invariant (find : String → Option Entity)
    (fetch : String → List Relation) (fromId toId : String)
    (Hid : ∀ i e, find i = some e → e.id = i)
    (k : Nat) (visited : List String) (frontier : List SearchEntry)
    (HV : ∀ w, w ∈ visited ↔
      ∃ j, j ≤ k ∧ NSteps (WalkStep find fetch toId) j fromId w)
    (HF : ∀ w, (∃ ent ∈ frontier, ent.id = w) ↔
      (NSteps (WalkStep find fetch toId) k fromId w ∧
        ∀ j, j < k → ¬ NSteps (WalkStep find fetch toId) j fromId w))
    (HE : ∀ ent ∈ frontier, EntryInv fetch fromId k ent)
    (hnofind : ∀ ent ∈ frontier, ∀ r ∈ fetch ent.id,
      neighborOf r ent.id ≠ toId) :
    (∀ w, w ∈ (searchExpand find fetch visited frontier).1 ↔
      ∃ j, j ≤ k + 1 ∧ NSteps (WalkStep find fetch toId) j fromId w)
    ∧ (∀ w, (∃ ent ∈ (searchExpand find fetch visited frontier).2,
          ent.id = w) ↔
        (NSteps (WalkStep find fetch toId) (k + 1) fromId w ∧
          ∀ j, j < k + 1 → ¬ NSteps (WalkStep find fetch toId) j fromId w))
    ∧ ∀ ent ∈ (searchExpand find fetch visited frontier).2,
        EntryInv fetch fromId (k + 1) ent := by
  have hstep_walk : ∀ ent ∈ frontier, ∀ w, StepTo find fetch ent.id w →
      WalkStep find fetch toId ent.id w := by
    intro ent hent w hs
    rcases hs with ⟨r, hr, hnb, hsome⟩
    exact ⟨⟨r, hr, hnb⟩, by rw [← hnb]; exact hnofind ent hent r hr, hsome⟩
  have hfront_nsteps : ∀ ent ∈ frontier,
      NSteps (WalkStep find fetch toId) k fromId ent.id := by
    intro ent hent
    exact ((HF ent.id).mp ⟨ent, hent, rfl⟩).1
  have hnew_nsteps : ∀ w, (∃ ent ∈ frontier, StepTo find fetch ent.id w) →
      NSteps (WalkStep find fetch toId) (k + 1) fromId w := by
    rintro w ⟨ent, hent, hs⟩
    exact (nsteps_succ_right (WalkStep find fetch toId) k fromId w).mpr
      ⟨ent.id, hfront_nsteps ent hent, hstep_walk ent hent w hs⟩
  have hreach_split : ∀ w, NSteps (WalkStep find fetch toId) (k + 1) fromId w →
      w ∈ visited ∨ (∃ ent ∈ frontier, StepTo find fetch ent.id w) := by
    intro w hD
    rcases (nsteps_succ_right (WalkStep find fetch toId) k fromId w).mp hD
      with ⟨v, hDv, hW⟩
    have hex : ∃ j, NSteps (WalkStep find fetch toId) j fromId v := ⟨k, hDv⟩
    rcases nat_exists_min hex with ⟨j0, hj0D, hj0min⟩
    have hj0le : j0 ≤ k := by
      by_contra hgt
      exact hj0min k (Nat.lt_of_not_le hgt) hDv
    rcases Nat.lt_or_ge j0 k with hlt | hge
    · left
      refine (HV w).mpr ⟨j0 + 1, Nat.succ_le_of_lt hlt, ?_⟩
      exact (nsteps_succ_right (WalkStep find fetch toId) j0 fromId w).mpr
        ⟨v, hj0D, hW⟩
    · have hj0k : j0 = k := Nat.le_antisymm hj0le hge
      subst hj0k
      rcases (HF v).mpr ⟨hj0D, fun j hj => hj0min j hj⟩
        with ⟨ent, hent, hid⟩
      right
      refine ⟨ent, hent, ?_⟩
      rw [hid]
      exact (stepTo_iff find fetch v w).mpr ⟨hW.1, hW.2.2⟩
  refine ⟨?_, ?_, ?_⟩
  · intro w
    unfold searchExpand
    rw [searchExpandFold_mem_fst]
    constructor
    · rintro (hw | hw)
      · rcases (HV w).mp hw with ⟨j, hj, hD⟩
        exact ⟨j, Nat.le_succ_of_le hj, hD⟩
      · exact ⟨k + 1, Nat.le_refl _, hnew_nsteps w hw⟩
    · rintro ⟨j, hj, hD⟩
      rcases Nat.lt_or_ge j (k + 1) with hlt | hge
      · exact Or.inl ((HV w).mpr ⟨j, Nat.lt_succ_iff.mp hlt, hD⟩)
      · have hjk : j = k + 1 := Nat.le_antisymm hj hge
        subst hjk
        rcases hreach_split w hD with hw | hw
        · exact Or.inl hw
        · exact Or.inr hw
  · intro w
    unfold searchExpand
    rw [searchExpandFold_mem_snd]
    simp only [List.not_mem_nil, false_and, exists_false, exists_and_left,
      false_or]
    constructor
    · rintro ⟨hnv, hw⟩
      have hmin : ∀ j, j < k + 1 →
          ¬ NSteps (WalkStep find fetch toId) j fromId w := by
        intro j hj hD
        exact hnv ((HV w).mpr ⟨j, Nat.lt_succ_iff.mp hj, hD⟩)
      rcases hw with ⟨ent, hent, hs⟩
      exact ⟨hnew_nsteps w ⟨ent, hent, hs⟩, hmin⟩
    · rintro ⟨hD, hmin⟩
      have hnv : w ∉ visited := by
        intro hw
        rcases (HV w).mp hw with ⟨j, hj, hDj⟩
        exact hmin j (Nat.lt_succ_of_le hj) hDj
      refine ⟨hnv, ?_⟩
      rcases hreach_split w hD with hw | hw
      · exact absurd hw hnv
      · exact hw
  · intro ent' hent'
    unfold searchExpand at hent'
    rcases searchExpandFold_origin find fetch frontier (visited, []) ent' hent'
      with h | ⟨ent, hent, r, hr, ne, hne, he'⟩
    · simp at h
    · rcases HE ent hent with ⟨hchain, hhead, hlast, hlen⟩
      rcases Option.map_eq_some'.mp hlast with ⟨a, hga, haid⟩
      have hneid : ne.id = neighborOf r ent.id := Hid _ _ hne
      subst he'
      refine ⟨?_, ?_, ?_, ?_⟩
      · refine pathChain_concat fetch ent.nodes ent.edges a ne.toNode r
          hchain hga ?_ ?_
        · rw [haid]; exact hr
        · show neighborOf r a.id = ne.toNode.id
          rw [haid]
          show neighborOf r ent.id = ne.id
          rw [hneid]
      · rcases Option.map_eq_some'.mp hhead with ⟨h0, hh0, hh0id⟩
        show ((ent.nodes ++ [ne.toNode]).head?).map GraphNode.id = some fromId
        rw [List.head?_append, hh0]
        simpa using hh0id
      · show ((ent.nodes ++ [ne.toNode]).getLast?).map GraphNode.id = _
        rw [List.getLast?_concat]
        show some ne.toNode.id = some (neighborOf r ent.id)
        rw [show ne.toNode.id = ne.id from rfl, hneid]
      · show (ent.edges ++ [r]).length = k + 1
        rw [List.length_append, hlen]
        rfl

theorem conn_propagate (find : String → Option Entity)
    (fetch : String → List Relation) (fromId toId : String)
    (hne : fromId ≠ toId) (k : Nat) (frontier : List SearchEntry)
    (HF : ∀ w, (∃ ent ∈ frontier, ent.id = w) ↔
      (NSteps (WalkStep find fetch toId) k fromId w ∧
        ∀ j, j < k → ¬ NSteps (WalkStep find fetch toId) j fromId w))
    (HP : ∀ j, j ≤ k → ¬ ConnectsIn find fetch fromId toId j)
    (hnofind : ∀ ent ∈ frontier, ∀ r ∈ fetch ent.id,
      neighborOf r ent.id ≠ toId) :
    ∀ j, j ≤ k + 1 → ¬ ConnectsIn find fetch fromId toId j := by
  intro j hj hC
  rcases Nat.lt_or_ge j (k + 1) with hlt | hge
  · exact HP j (Nat.lt_succ_iff.mp hlt) hC
  · have hjk : j = k + 1 := Nat.le_antisymm hj hge
    subst hjk
    unfold ConnectsIn at hC
    rcases (connects_decompose find fetch toId k fromId hne).mp hC
      with ⟨v, hDv, hE⟩
    have hex : ∃ i, NSteps (WalkStep find fetch toId) i fromId v := ⟨k, hDv⟩
    rcases nat_exists_min hex with ⟨j0, hj0D, hj0min⟩
    have hj0le : j0 ≤ k := by
      by_contra hgt
      exact hj0min k (Nat.lt_of_not_le hgt) hDv
    rcases Nat.lt_or_ge j0 k with hlt0 | hge0
    · have hC0 : ConnectsIn find fetch fromId toId (j0 + 1) :=
        (connects_decompose find fetch toId j0 fromId hne).mpr ⟨v, hj0D, hE⟩
      exact HP (j0 + 1) (Nat.succ_le_of_lt hlt0) hC0
    · have hj0k : j0 = k := Nat.le_antisymm hj0le hge0
      subst hj0k
      rcases (HF v).mpr ⟨hj0D, fun i hi => hj0min i hi⟩ with ⟨ent, hent, hid⟩
      rcases hE with ⟨r, hr, hnb⟩
      subst hid
      exact hnofind ent hent r hr hnb

theorem levelFind_goodPath (find : String → Option Entity)
    (fetch : String → List Relation) (fromId toId : String) (te : Entity)
    (Hid : ∀ i e, find i = some e → e.id = i)
    (hto : find toId = some te) (hne : fromId ≠ toId)
    (k : Nat) (frontier : List SearchEntry)
    (HF : ∀ w, (∃ ent ∈ frontier, ent.id = w) ↔
      (NSteps (WalkStep find fetch toId) k fromId w ∧
        ∀ j, j < k → ¬ NSteps (WalkStep find fetch toId) j fromId w))
    (HE : ∀ ent ∈ frontier, EntryInv fetch fromId k ent)
    (HP : ∀ j, j ≤ k → ¬ ConnectsIn find fetch fromId toId j)
    (p : List GraphNode × List Relation)
    (h : levelFind fetch toId te.toNode frontier = some p) :
    GoodPath find fetch fromId toId p
    ∧ ∃ n, n ≤ k + 1 ∧ ConnectsIn find fetch fromId toId n := by
  rcases levelFind_eq_some fetch toId te.toNode frontier p h
    with ⟨ent, hent, r, hr, hnb, hp⟩
  rcases HE ent hent with ⟨hchain, hhead, hlast, hlen⟩
  have hD : NSteps (WalkStep find fetch toId) k fromId ent.id :=
    ((HF ent.id).mp ⟨ent, hent, rfl⟩).1
  have hconn : ConnectsIn find fetch fromId toId (k + 1) := by
    unfold ConnectsIn
    exact (connects_decompose find fetch toId k fromId hne).mpr
      ⟨ent.id, hD, ⟨r, hr, hnb⟩⟩
  have hteid : te.id = toId := Hid _ _ hto
  have hlen' : (ent.edges ++ [r]).length = k + 1 := by simp [hlen]
  subst hp
  refine ⟨⟨?_, ?_, ?_, ?_, ?_⟩, ⟨k + 1, Nat.le_refl _, hconn⟩⟩
  · rcases Option.map_eq_some'.mp hlast with ⟨a, hga, haid⟩
    refine pathChain_concat fetch ent.nodes ent.edges a te.toNode r
      hchain hga ?_ ?_
    · rw [haid]; exact hr
    · show neighborOf r a.id = te.toNode.id
      rw [haid]
      show neighborOf r ent.id = te.id
      rw [hteid]; exact hnb
  · rcases Option.map_eq_some'.mp hhead with ⟨h0, hh0, hh0id⟩
    show ((ent.nodes ++ [te.toNode]).head?).map GraphNode.id = some fromId
    rw [List.head?_append, hh0]
    simpa using hh0id
  · show ((ent.nodes ++ [te.toNode]).getLast?).map GraphNode.id = some toId
    rw [List.getLast?_concat]
    show some te.toNode.id = some toId
    rw [show te.toNode.id = te.id from rfl, hteid]
  · show ConnectsIn find fetch fromId toId (ent.edges ++ [r]).length
    rw [hlen']
    exact hconn
  · intro m hm
    show (ent.edges ++ [r]).length ≤ m
    rw [hlen']
    by_contra hlt
    have hmle : m ≤ k := Nat.lt_succ_iff.mp (Nat.lt_of_not_le hlt)
    exact HP m hmle hm

theorem searchLoop_correct (find : String → Option Entity)
    (fetch : String → List Relation) (fromId toId : String) (te : Entity)
    (Hid : ∀ i e, find i = some e → e.id = i)
    (hto : find toId = some te) (hne : fromId ≠ toId) :
    ∀ (d k : Nat) (visited : List String) (frontier : List SearchEntry),
      (∀ w, w ∈ visited ↔
        ∃ j, j ≤ k ∧ NSteps (WalkStep find fetch toId) j fromId w) →
      (∀ w, (∃ ent ∈ frontier, ent.id = w) ↔
        (NSteps (WalkStep find fetch toId) k fromId w ∧
          ∀ j, j < k → ¬ NSteps (WalkStep find fetch toId) j fromId w)) →
      (∀ ent ∈ frontier, EntryInv fetch fromId k ent) →
      (∀ j, j ≤ k → ¬ ConnectsIn find fetch fromId toId j) →
      (searchLoop find fetch toId te.toNode d visited frontier = none ↔
        ¬ ∃ n, n ≤ k + d ∧ ConnectsIn find fetch fromId toId n)
      ∧ ∀ p, searchLoop find fetch toId te.toNode d visited frontier = some p →
          GoodPath find fetch fromId toId p := by
  intro d
  induction d with
  | zero =>
      intro k visited frontier HV HF HE HP
      constructor
      · constructor
        · rintro _ ⟨n, hn, hC⟩
          exact HP n (by simpa using hn) hC
        · intro _; rfl
      · intro p hp
        simp [searchLoop] at hp
  | succ d ih =>
      intro k visited frontier HV HF HE HP
      cases hlf : levelFind fetch toId te.toNode frontier with
      | some p =>
          have heq : searchLoop find fetch toId te.toNode (d + 1) visited
              frontier = some p := by
            unfold searchLoop
            rw [hlf]
          rcases levelFind_goodPath find fetch fromId toId te Hid hto hne
              k frontier HF HE HP p hlf with ⟨hgood, n, hn, hC⟩
          constructor
          · rw [heq]
            constructor
            · intro h; cases h
            · intro h
              exact absurd ⟨n, by omega, hC⟩ h
          · intro p' hp'
            rw [heq] at hp'
            injection hp' with hpp
            subst hpp
            exact hgood
      | none =>
          have hnofind :=
            (levelFind_eq_none fetch toId te.toNode frontier).mp hlf
          have hinv := searchExpand_invariant find fetch fromId toId Hid
            k visited frontier HV HF HE hnofind
          have HP' := conn_propagate find fetch fromId toId hne k frontier
            HF HP hnofind
          have heq : searchLoop find fetch toId te.toNode (d + 1) visited
              frontier =
              searchLoop find fetch toId te.toNode d
                (searchExpand find fetch visited frontier).1
                (searchExpand find fetch visited frontier).2 := by
            conv_lhs => unfold searchLoop
            rw [hlf]
          have hrec := ih (k + 1) (searchExpand find fetch visited frontier).1
            (searchExpand find fetch visited frontier).2
            hinv.1 hinv.2.1 hinv.2.2 HP'
          rw [heq]
          constructor
          · rw [hrec.1]
            have harith : k + 1 + d = k + (d + 1) := by omega
            rw [harith]
          · exact hrec.2

theorem findPathWith_correct (find : String → Option Entity)
    (fetch : String → List Relation) (fromId toId : String) (maxDepth : Nat)
    (Hid : ∀ i e, find i = some e → e.id = i) :
    (findPathWith find fetch fromId toId maxDepth = none ↔
      find fromId = none ∨ find toId = none ∨
        ¬ ∃ n, n ≤ maxDepth ∧ ConnectsIn find fetch fromId toId n)
    ∧ ∀ p, findPathWith find fetch fromId toId maxDepth = some p →
        GoodPath find fetch fromId toId p := by
  cases hfrom : find fromId with
  | none =>
      have heq : findPathWith find fetch fromId toId maxDepth = none := by
        unfold findPathWith
        rw [hfrom]
      refine ⟨?_, ?_⟩
      · rw [heq]
        constructor
        · intro _; exact Or.inl rfl
        · intro _; rfl
      · intro p hp; rw [heq] at hp; cases hp
  | some fe =>
      cases hto : find toId with
      | none =>
          have heq : findPathWith find fetch fromId toId maxDepth = none := by
            unfold findPathWith
            rw [hfrom, hto]
          refine ⟨?_, ?_⟩
          · rw [heq]
            constructor
            · intro _; exact Or.inr (Or.inl rfl)
            · intro _; rfl
          · intro p hp; rw [heq] at hp; cases hp
      | some te =>
          have hfeid : fe.id = fromId := Hid _ _ hfrom
          by_cases heqid : fromId = toId
          · have heq : findPathWith find fetch fromId toId maxDepth =
                some ([fe.toNode], []) := by
              unfold findPathWith
              rw [hfrom, hto]
              show (if (fromId == toId) = true then some ([fe.toNode], [])
                  else searchLoop find fetch toId te.toNode maxDepth [fromId]
                    [(⟨fromId, [fe.toNode], []⟩ : SearchEntry)]) =
                some ([fe.toNode], [])
              rw [if_pos (by simp [heqid])]
            refine ⟨?_, ?_⟩
            · rw [heq]
              constructor
              · intro h; cases h
              · rintro (h | h | h)
                · cases h
                · cases h
                · refine absurd ⟨0, Nat.zero_le _, ?_⟩ h
                  show NSteps (ConnStep find fetch toId) 0 fromId toId
                  exact heqid
            · intro p hp
              rw [heq] at hp
              injection hp with hpp
              subst hpp
              refine ⟨trivial, ?_, ?_, ?_, ?_⟩
              · show (([fe.toNode] : List GraphNode).head?).map GraphNode.id =
                  some fromId
                simp [Entity.toNode, hfeid]
              · show (([fe.toNode] : List GraphNode).getLast?).map
                    GraphNode.id = some toId
                simp [Entity.toNode, hfeid, heqid]
              · show NSteps (ConnStep find fetch toId) 0 fromId toId
                exact heqid
              · intro m _
                exact Nat.zero_le m
          · have heq : findPathWith find fetch fromId toId maxDepth =
                searchLoop find fetch toId te.toNode maxDepth [fromId]
                  [(⟨fromId, [fe.toNode], []⟩ : SearchEntry)] := by
              unfold findPathWith
              rw [hfrom, hto]
              show (if (fromId == toId) = true then some ([fe.toNode], [])
                  else searchLoop find fetch toId te.toNode maxDepth [fromId]
                    [(⟨fromId, [fe.toNode], []⟩ : SearchEntry)]) =
                searchLoop find fetch toId te.toNode maxDepth [fromId]
                  [(⟨fromId, [fe.toNode], []⟩ : SearchEntry)]
              rw [if_neg (by simp [heqid])]
            have HV0 : ∀ w, w ∈ [fromId] ↔
                ∃ j, j ≤ 0 ∧ NSteps (WalkStep find fetch toId) j fromId w := by
              intro w
              constructor
              · intro hw
                have hwf : w = fromId := by simpa using hw
                exact ⟨0, Nat.le_refl 0, hwf.symm⟩
              · rintro ⟨j, hj, hD⟩
                have hj0 : j = 0 := Nat.le_zero.mp hj
                subst hj0
                have hwf : fromId = w := hD
                exact List.mem_singleton.mpr hwf.symm
            have HF0 : ∀ w,
                (∃ ent ∈ [(⟨fromId, [fe.toNode], []⟩ : SearchEntry)],
                    ent.id = w) ↔
                (NSteps (WalkStep find fetch toId) 0 fromId w ∧
                  ∀ j, j < 0 →
                    ¬ NSteps (WalkStep find fetch toId) j fromId w) := by
              intro w
              constructor
              · rintro ⟨ent, hent, hid⟩
                have hent' := List.mem_singleton.mp hent
                subst hent'
                refine ⟨?_, ?_⟩
                · show fromId = w
                  exact hid
                · intro j hj
                  exact (Nat.not_lt_zero j hj).elim
              · rintro ⟨hD, _⟩
                have hwf : fromId = w := hD
                exact ⟨_, List.mem_singleton.mpr rfl, hwf⟩
            have HE0 : ∀ ent ∈ [(⟨fromId, [fe.toNode], []⟩ : SearchEntry)],
                EntryInv fetch fromId 0 ent := by
              intro ent hent
              have hent' := List.mem_singleton.mp hent
              subst hent'
              refine ⟨trivial, ?_, ?_, rfl⟩
              · show (([fe.toNode] : List GraphNode).head?).map GraphNode.id =
                  some fromId
                simp [Entity.toNode, hfeid]
              · show (([fe.toNode] : List GraphNode).getLast?).map
                    GraphNode.id = some fromId
                simp [Entity.toNode, hfeid]
            have HP0 : ∀ j, j ≤ 0 →
                ¬ ConnectsIn find fetch fromId toId j := by
              intro j hj hC
              have hj0 : j = 0 := Nat.le_zero.mp hj
              subst hj0
              exact heqid hC
            have hmain := searchLoop_correct find fetch fromId toId te Hid
              hto heqid maxDepth 0 [fromId]
              [(⟨fromId, [fe.toNode], []⟩ : SearchEntry)]
              HV0 HF0 HE0 HP0
            refine ⟨?_, ?_⟩
            · rw [heq, hmain.1, Nat.zero_add]
              constructor
              · intro h; exact Or.inr (Or.inr h)
              · rintro (h | h | h)
                · cases h
                · cases h
                · exact h
            · intro p hp
              rw [heq] at hp
              exact hmain.2 p hp

theorem findById_eq_id (g : Graph) (i : String) (e : Entity)
    (h : findById g i = some e) : e.id = i := by
  unfold findById at h
  have h2 := List.find?_some h
  simpa using h2

/-- Claim C2: `findPath` returns `none` exactly when an endpoint entity does
not resolve or no relation chain (through resolvable nodes) connects the
endpoints within `maxDepth` hops; any returned path is a valid chain ordered
from `fromId` to `toId` realising a connecting chain of minimal hop count
(`GoodPath`). -/
theorem findPath_correct (g : Graph) (fromId toId : String) (maxDepth : Nat) :
    (findPath g fromId toId maxDepth = none ↔
      findById g fromId = none ∨ findById g toId = none ∨
        ¬ ∃ n, n ≤ maxDepth ∧
          ConnectsIn (findById g) (findByEntity g) fromId toId n)
    ∧ ∀ p, findPath g fromId toId maxDepth = some p →
        GoodPath (findById g) (findByEntity g) fromId toId p :=
  findPathWith_correct (findById g) (findByEntity g) fromId toId maxDepth
    (fun i e h => findById_eq_id g i e h)

/-- Witness for `findPath_correct` on a two-entity graph with one relation:
the returned path is the direct hop from "a" to "b". -/
theorem findPath_correct_witness :
    GoodPath
      (findById { entities := [
        { id := "a", userId := "u", type := "PERSON", name := "Alice",
          properties := none },
        { id := "b", userId := "u", type := "PERSON", name := "Bob",
          properties := none }], relations := [
        { id := "r1", sourceId := "a", targetId := "b", type := "KNOWS",
          confidence := 1 }] })
      (findByEntity { entities := [
        { id := "a", userId := "u", type := "PERSON", name := "Alice",
          properties := none },
        { id := "b", userId := "u", type := "PERSON", name := "Bob",
          properties := none }], relations := [
        { id := "r1", sourceId := "a", targetId := "b", type := "KNOWS",
          confidence := 1 }] })
      "a" "b"
      ([{ id := "a", type := "PERSON", name := "Alice", properties := none },
        { id := "b", type := "PERSON", name := "Bob", properties := none }],
       [{ id := "r1", sourceId := "a", targetId := "b", type := "KNOWS",
          confidence := 1 }]) :=
  (findPath_correct
      { entities := [
        { id := "a", userId := "u", type := "PERSON", name := "Alice",
          properties := none },
        { id := "b", userId := "u", type := "PERSON", name := "Bob",
          properties := none }], relations := [
        { id := "r1", sourceId := "a", targetId := "b", type := "KNOWS",
          confidence := 1 }] }
      "a" "b" 2).2
    ([{ id := "a", type := "PERSON", name := "Alice", properties := none },
      { id := "b", type := "PERSON", name := "Bob", properties := none }],
     [{ id := "r1", sourceId := "a", targetId := "b", type := "KNOWS",
        confidence := 1 }])
    (by decide)

/-! ## Extraction pipeline -/

theorem lookupName_isSome (m : List (String × String)) (n : String) :
    (lookupName m n).isSome = m.any (fun p => p.1 == lowerName n) := by
  unfold lookupName
  rw [Option.isSome_map']
  rw [Bool.eq_iff_iff]
  simp [List.find?_isSome, List.any_eq_true]

theorem buildEntityMap_any_keys (upsert : RawEntity → Entity) (key : String) :
    ∀ (ents : List RawEntity),
      ((buildEntityMap upsert ents).1).any (fun p => p.1 == key) =
        ents.any (fun e => lowerName e.name == key) := by
  intro ents
  induction ents with
  | nil => rfl
  | cons re rest ih =>
      show (((buildEntityMap upsert rest).1 ++
          [(lowerName re.name, (upsert re).id)]).any (fun p => p.1 == key)) = _
      rw [List.any_append, ih]
      simp [Bool.or_comm]

theorem lookup_entityNameMap (llm : RawExtraction) (opts : ExtractOptions)
    (upsert : RawEntity → Entity) (n : String) :
    (lookupName (entityNameMap llm opts upsert) n).isSome =
      resolvesIn (survivingEntities llm opts) n := by
  rw [lookupName_isSome]
  exact buildEntityMap_any_keys upsert (lowerName n) (survivingEntities llm opts)

theorem persistRelations_eq (createRel : String → String → RawRelation → Relation)
    (m : List (String × String)) :
    ∀ (rels : List RawRelation),
      persistRelations createRel m rels =
        (rels.filter (fun rel => (lookupName m rel.source).isSome
            && (lookupName m rel.target).isSome)).map
          (fun rel => createRel ((lookupName m rel.source).getD "")
            ((lookupName m rel.target).getD "") rel) := by
  intro rels
  induction rels with
  | nil => rfl
  | cons rel rest ih =>
      unfold persistRelations
      cases hs : lookupName m rel.source with
      | none => simp [List.filter_cons, hs, ih]
      | some sid =>
          cases ht : lookupName m rel.target with
          | none => simp [List.filter_cons, hs, ht, ih]
          | some tid => simp [List.filter_cons, hs, ht, ih]

/-- Claim C7: with `saveToGraph`, the persisted relations are exactly — in
order — the confidence-surviving relations whose source and target names
both resolve case-insensitively against a confidence-surviving entity name;
every other surviving relation is silently dropped (no error: the function
is total) and excluded from the result.  The final conjunct ties the
`resolvesIn` filter to the claim's wording. -/
theorem extractFromText_drops_unresolved (llm : RawExtraction)
    (opts : ExtractOptions) (upsert : RawEntity → Entity)
    (createRel : String → String → RawRelation → Relation)
    (h : opts.saveToGraph = true) :
    ((extractFromText llm opts upsert createRel).relations =
      ((survivingRelations llm opts).filter (fun rel =>
          resolvesIn (survivingEntities llm opts) rel.source
          && resolvesIn (survivingEntities llm opts) rel.target)).map
        (fun rel => createRel
          ((lookupName (entityNameMap llm opts upsert) rel.source).getD "")
          ((lookupName (entityNameMap llm opts upsert) rel.target).getD "")
          rel))
    ∧ ∀ n, resolvesIn (survivingEntities llm opts) n = true ↔
        ∃ e ∈ survivingEntities llm opts, lowerName e.name = lowerName n := by
  constructor
  · have heq : (extractFromText llm opts upsert createRel).relations =
        persistRelations createRel (entityNameMap llm opts upsert)
          (survivingRelations llm opts) := by
      unfold extractFromText
      rw [if_pos h]
      rfl
    rw [heq, persistRelations_eq]
    have hpq : ∀ rel ∈ survivingRelations llm opts,
        ((lookupName (entityNameMap llm opts upsert) rel.source).isSome
          && (lookupName (entityNameMap llm opts upsert) rel.target).isSome)
        = (resolvesIn (survivingEntities llm opts) rel.source
          && resolvesIn (survivingEntities llm opts) rel.target) := by
      intro rel _
      rw [lookup_entityNameMap, lookup_entityNameMap]
    rw [List.filter_congr hpq]
  · intro n
    unfold resolvesIn
    rw [List.any_eq_true]
    simp

/-- Witness for `extractFromText_drops_unresolved`: a surviving relation
whose target name resolves against no surviving entity is dropped, so no
relation is persisted. -/
theorem extractFromText_drops_unresolved_witness :
    (extractFromText
      (⟨[⟨"John", "person", none⟩],
        [⟨"John", "Unknown", "knows", none⟩]⟩ : RawExtraction)
      (⟨some 0, true⟩ : ExtractOptions)
      (fun _ => (⟨"e1", "u", "person", "John", none⟩ : Entity))
      (fun sid tid rel =>
        (⟨"r9", sid, tid, rel.type, confidenceOf rel.confidence⟩ :
          Relation))).relations = [] := by
  have h2 := (extractFromText_drops_unresolved
      (⟨[⟨"John", "person", none⟩],
        [⟨"John", "Unknown", "knows", none⟩]⟩ : RawExtraction)
      (⟨some 0, true⟩ : ExtractOptions)
      (fun _ => (⟨"e1", "u", "person", "John", none⟩ : Entity))
      (fun sid tid rel =>
        (⟨"r9", sid, tid, rel.type, confidenceOf rel.confidence⟩ :
          Relation)) rfl).1
  rw [h2]
  decide

/-! ## Tenant key validator -/

/-- Claim C8: cache failures never surface from `validateKey` — a cache-read
error behaves exactly like a cache miss, the returned value does not depend
on the cache-write outcome, and a valid key still validates successfully
under a failed cache read and any cache-write outcome. -/
theorem validateKey_cache_resilient (rawKey : String) (e : String)
    (w : Except String Unit) (lookup : Option ApiKeyRecord) (now : Int) :
    (validateKey rawKey (Except.error e) w lookup now =
      validateKey rawKey (Except.ok none) w lookup now)
    ∧ (∀ (cr : Except String (Option KeyValidation)) (w' : Except String Unit),
        validateKey rawKey cr w lookup now =
          validateKey rawKey cr w' lookup now)
    ∧ ∀ k, rawKey.isEmpty = false → (rawKey.data.take 3 == "mk_".data) = true →
        lookup = some k → k.isActive = true →
        (∀ t, k.expiresAt = some t → now ≤ t) → k.userDeleted = false →
        validateKey rawKey (Except.error e) w lookup now =
          Except.ok ⟨k.id, k.userId, k.name,
            k.subscriptionTier.getD "FREE"⟩ := by
  refine ⟨?_, ?_, ?_⟩
  · rfl
  · intro cr w'
    cases w <;> cases w' <;> rfl
  · intro k hemp hpre hlk hact hexp hdel
    cases hkexp : k.expiresAt with
    | none =>
        unfold validateKey
        simp only [hemp, hpre, hlk, hact, hdel, hkexp, Bool.not_true,
          Bool.or_false, Bool.false_or, if_false]
        cases w <;> rfl
    | some t =>
        have hnl : decide (t < now) = false :=
          decide_eq_false (Int.not_lt.mpr (hexp t hkexp))
        unfold validateKey
        simp only [hemp, hpre, hlk, hact, hdel, hkexp, hnl, Bool.not_true,
          Bool.or_false, Bool.false_or, if_false]
        cases w <;> rfl

/-- Witness for `validateKey_cache_resilient`: a concrete valid key
validates to its record under a failed cache read and a failed cache
write. -/
theorem validateKey_cache_resilient_witness :
    validateKey "mk_k1" (Except.error "redis down") (Except.error "redis down")
      (some (⟨"key-id", "user-id", "Test Key", true, none, false, none⟩ :
        ApiKeyRecord)) 0 =
      Except.ok (⟨"key-id", "user-id", "Test Key", "FREE"⟩ : KeyValidation) :=
  (validateKey_cache_resilient "mk_k1" "redis down" (Except.error "redis down")
      (some (⟨"key-id", "user-id", "Test Key", true, none, false, none⟩ :
        ApiKeyRecord)) 0).2.2
    (⟨"key-id", "user-id", "Test Key", true, none, false, none⟩ : ApiKeyRecord)
    (by decide) (by decide) rfl rfl (fun t ht => nomatch ht) rfl

end Memai
